import Mathlib

/-
Verification of the prompt-guard subsystem of the clawsync repository.

Python strings are embedded as `List Char` (a sequence of code points, written
`Str` below); compiled regular expressions are embedded as matcher records
carrying a `search : Str → Bool` predicate (and, where the code calls
`pattern.sub`, a substitution function).  All classes are embedded as
structures, mutation as explicit state passing, and exceptions as `Option`.
-/

set_option maxRecDepth 4000

/-- A Python `str`, modelled as a list of code points. -/
abbrev Str := List Char

/-- Coerce a Lean string literal to the `Str` embedding. -/
def str (s : String) : Str := s.data

/-- Python `str.lower` (ASCII range, which covers every pattern in the source). -/
def pyLower (s : Str) : Str := s.map Char.toLower

/-- Python's whitespace set as used by `str.strip`. -/
def pySpace (c : Char) : Bool :=
  c = ' ' || c = '\t' || c = '\n' || c = '\x0d' || c = '\x0b' || c = '\x0c'

/-- Python `str.strip()`: drop leading and trailing whitespace. -/
def pyStrip (s : Str) : Str :=
  ((s.dropWhile pySpace).reverse.dropWhile pySpace).reverse

/-- `isPre pat s` is Python `s.startswith(pat)`. -/
def isPre : Str → Str → Bool
  | [], _ => true
  | _ :: _, [] => false
  | a :: as, b :: bs => a == b && isPre as bs

/-- `isSub pat s` is Python `pat in s` (substring containment). -/
def isSub (pat : Str) : Str → Bool
  | [] => pat.isEmpty
  | b :: bs => isPre pat (b :: bs) || isSub pat bs

/-- Worker for `replaceAll`, structurally recursive on a fuel bounding the
number of characters still to examine (each step consumes at least one, so
`s.length` fuel is always enough). -/
def replaceAllAux (pat repl : Str) : Nat → Str → Str
  | _, [] => []
  | 0, s => s
  | fuel + 1, c :: rest =>
    if pat = [] then c :: rest
    else if isPre pat (c :: rest) then
      repl ++ replaceAllAux pat repl fuel ((c :: rest).drop pat.length)
    else c :: replaceAllAux pat repl fuel rest

/-- Python `re.sub` for a literal pattern: replace each leftmost
non-overlapping occurrence of `pat` by `repl`. -/
def replaceAll (pat repl s : Str) : Str := replaceAllAux pat repl s.length s

/-- Python `", ".join`-style intercalation. -/
def strJoin (sep : Str) : List Str → Str
  | [] => []
  | [x] => x
  | x :: y :: rest => x ++ sep ++ strJoin sep (y :: rest)

/-- Python string `<` (lexicographic comparison by code point). -/
def strLt : Str → Str → Bool
  | [], [] => false
  | [], _ :: _ => true
  | _ :: _, [] => false
  | a :: as, b :: bs => if a < b then true else if b < a then false else strLt as bs

/-- Python `max(iterable, default=d)` over strings: returns `d` only when the
list is empty, otherwise the maximum element (first occurrence on ties). -/
def pyStrMax (l : List Str) (dflt : Str) : Str :=
  match l with
  | [] => dflt
  | x :: xs => xs.foldl (fun a b => if strLt a b then b else a) x

/-
## Kill switch (stateful_guard.py, class KillSwitch)

The durable state file is embedded as a `FileRead`: it is absent, present but
unreadable/unparseable (any exception inside the `try`), or parsed into a
JSON object whose four fields may each be missing (`dict.get`).
-/

/-- Outcome of opening and parsing the kill-switch state file. -/
inductive FileRead where
  | absent
  | corrupt
  | parsed (locked : Option Bool) (lockedAt lockedBy lockReason : Option Str)
deriving DecidableEq

/-- In-memory fields of `KillSwitch` after `_load_state`. -/
structure KillSwitchMem where
  locked : Bool
  lockedAt : Option Str
  lockedBy : Option Str
  lockReason : Str
deriving DecidableEq, Repr

/-- `KillSwitch._load_state`: read the durable record, falling back to the
unlocked defaults when the file is absent or anything in the `try` raises. -/
def loadState : FileRead → KillSwitchMem
  | .absent => ⟨false, none, none, []⟩
  | .corrupt => ⟨false, none, none, []⟩
  | .parsed locked at_ by_ reason =>
      ⟨locked.getD false, at_, by_, reason.getD []⟩

/-- `KillSwitch.is_locked`: refresh from disk, then answer the flag. -/
def isLocked (f : FileRead) : Bool := (loadState f).locked

/-
## Sandbox escape detection (stateful_guard.py, class SandboxDetector)

Each compiled dangerous pattern is a matcher with its detector-type name and
regex source; the legitimate-context patterns are matchers applied to the
separately supplied user intent.
-/

/-- A compiled dangerous-operation pattern: regex source, detector type name,
and the compiled `search` predicate. -/
structure SandboxPat where
  src : Str
  name : Str
  search : Str → Bool

/-- Detector-type names tagged `"critical"` in `SandboxDetector.detect`. -/
def criticalNames : List Str :=
  [str "privilege_escalation", str "reverse_shell",
   str "container_spawn", str "library_injection"]

/-- One detected threat, as built inside `SandboxDetector.detect`. -/
structure Threat where
  type : Str
  pattern : Str
  severity : Str
deriving DecidableEq, Repr

/-- Result record of `SandboxDetector.detect`. -/
structure DetectResult where
  safe : Bool
  threats : List Threat
  severity : Str
deriving DecidableEq, Repr

/-- The compiled state of a `SandboxDetector`. -/
structure SandboxDetector where
  dangerous : List SandboxPat
  legitimate : List (Str → Bool)

/-- `SandboxDetector.detect`: collect threats from dangerous patterns that
match the text, suppressed only when the user intent matches a legitimate
context; the aggregate severity is Python `max(strings, default="none")`. -/
def detect (d : SandboxDetector) (text userIntent : Str) : DetectResult :=
  let threats := (d.dangerous.filter
      (fun p => p.search text && !(d.legitimate.any (fun l => l userIntent)))).map
    (fun p => ⟨p.name, p.src,
      if criticalNames.contains p.name then str "critical" else str "high"⟩)
  ⟨threats.isEmpty, threats, pyStrMax (threats.map Threat.severity) (str "none")⟩

/-
## Conversation buffer (stateful_guard.py, class ConversationBuffer)

`deque(maxlen=N)` is embedded as a list holding at most the last `N` appended
elements (append on the right, evict on the left); `datetime.now()` readings
are supplied explicitly as integer instants.  The two per-user dicts are
embedded as functions returning `Option` (Python `in` / missing key).
-/

/-- One conversation turn, as the dict appended by `add_turn`. -/
structure Turn where
  timestamp : Int
  user : Str
  agent : Str
deriving DecidableEq, Repr

/-- Append on a `deque(maxlen := cap)`: keep only the last `cap` elements. -/
def dequePush (cap : Nat) (b : List Turn) (t : Turn) : List Turn :=
  let b' := b ++ [t]
  b'.drop (b'.length - cap)

/-- State of a `ConversationBuffer`. -/
structure ConvBuffer where
  windowSize : Nat
  ttl : Int
  buffers : Str → Option (List Turn)
  timestamps : Str → Option Int

/-- `ConversationBuffer.add_turn` at instant `now`. -/
def addTurn (st : ConvBuffer) (now : Int) (userId userMsg agentMsg : Str) : ConvBuffer :=
  let cur := (st.buffers userId).getD []
  { st with
    buffers := fun u => if u = userId then some (dequePush st.windowSize cur ⟨now, userMsg, agentMsg⟩) else st.buffers u,
    timestamps := fun u => if u = userId then some now else st.timestamps u }

/-- `ConversationBuffer.get_recent_messages`. -/
def getRecentMessages (st : ConvBuffer) (userId : Str) : List Str :=
  match st.buffers userId with
  | none => []
  | some b => b.map Turn.user

/-- `ConversationBuffer.clear_user`. -/
def clearUser (st : ConvBuffer) (userId : Str) : ConvBuffer :=
  { st with
    buffers := fun u => if u = userId then none else st.buffers u,
    timestamps := fun u => if u = userId then none else st.timestamps u }

/-- The context string assembled by the loop at the end of `get_context`. -/
def contextOf : List Turn → Str
  | [] => []
  | t :: rest =>
    (str "User: " ++ t.user ++ str "\n"
      ++ (if t.agent ≠ [] then str "Agent: " ++ t.agent ++ str "\n" else []))
      ++ contextOf rest

/-- `ConversationBuffer.get_context` at instant `now`: returns the combined
context and the (possibly TTL-cleared) buffer state. -/
def getContext (st : ConvBuffer) (now : Int) (userId : Str) : Str × ConvBuffer :=
  match st.buffers userId with
  | none => ([], st)
  | some b =>
    if now - ((st.timestamps userId).getD now) > st.ttl then
      ([], clearUser st userId)
    else
      (contextOf b, st)

/-- `ConversationBuffer.clear_expired` at instant `now`. -/
def clearExpired (st : ConvBuffer) (now : Int) : ConvBuffer :=
  { st with
    buffers := fun u => match st.timestamps u with
      | some ts => if now - ts > st.ttl then none else st.buffers u
      | none => st.buffers u,
    timestamps := fun u => match st.timestamps u with
      | some ts => if now - ts > st.ttl then none else st.timestamps u
      | none => none }

/-- The operations a caller can perform on a `ConversationBuffer`. -/
inductive ConvOp where
  | add (now : Int) (userId userMsg agentMsg : Str)
  | getCtx (now : Int) (userId : Str)
  | clear (userId : Str)
  | clearExp (now : Int)

/-- Apply one operation to the buffer state. -/
def applyConvOp (st : ConvBuffer) : ConvOp → ConvBuffer
  | .add now u um am => addTurn st now u um am
  | .getCtx now u => (getContext st now u).2
  | .clear u => clearUser st u
  | .clearExp now => clearExpired st now

/-
## Scan cache (streaming_interceptor.py, class ScanCache)

`self._cache` and `self._timestamps` are two dicts on the same keys, updated
in lockstep; they are embedded together as one insertion-ordered association
list of (key, value, timestamp).  The SHA-256 fingerprint of `_make_key` is
an uninterpreted injective-in-use function field `hashFn`; only the fact that
equal normalised texts yield equal keys is ever used.  `set` on a full cache
with an empty dict would raise `ValueError` in `min`; that branch is `none`.
-/

/-- One cache entry: key, cached verdict payload, insertion timestamp. -/
structure CacheEntry (V : Type) where
  key : Str
  value : V
  insertedAt : Int
deriving Repr

/-- State of a `ScanCache`. -/
structure ScanCache (V : Type) where
  maxSize : Nat
  ttl : Int
  hashFn : Str → Str
  entries : List (CacheEntry V)
  hits : Nat
  misses : Nat

/-- `ScanCache._make_key`: hash of the case-folded, stripped text. -/
def makeKey {V : Type} (c : ScanCache V) (text : Str) : Str :=
  c.hashFn (pyStrip (pyLower text))

/-- Dict lookup on the entry list. -/
def cacheLookup {V : Type} (entries : List (CacheEntry V)) (key : Str) : Option (V × Int) :=
  match entries.find? (fun e => e.key = key) with
  | some e => some (e.value, e.insertedAt)
  | none => none

/-- Dict `del`: drop the entry with the given key. -/
def cacheRemove {V : Type} (entries : List (CacheEntry V)) (key : Str) : List (CacheEntry V) :=
  entries.filter (fun e => e.key ≠ key)

/-- Dict assignment `d[key] = v`: overwrite in place (keeping the original
insertion position, as Python dicts do) or append as newest. -/
def cacheInsert {V : Type} (entries : List (CacheEntry V)) (key : Str) (v : V) (now : Int) :
    List (CacheEntry V) :=
  if entries.any (fun e => e.key = key) then
    entries.map (fun e => if e.key = key then ⟨key, v, now⟩ else e)
  else
    entries ++ [⟨key, v, now⟩]

/-- `min(self._timestamps.items(), key=...)`: the first entry in iteration
order with the minimal timestamp, `none` on an empty dict (`ValueError`). -/
def cacheOldest {V : Type} (entries : List (CacheEntry V)) : Option (CacheEntry V) :=
  entries.foldl
    (fun best e => match best with
      | none => some e
      | some b => if e.insertedAt < b.insertedAt then some e else best)
    none

/-- `ScanCache.get` at instant `now`: the cached verdict (or `none`) and the
updated cache state (expired entries are evicted on read). -/
def cacheGet {V : Type} (c : ScanCache V) (text : Str) (now : Int) :
    Option V × ScanCache V :=
  let key := makeKey c text
  match cacheLookup c.entries key with
  | some (v, ts) =>
    if now - ts < c.ttl then
      (some v, { c with hits := c.hits + 1 })
    else
      (none, { c with entries := cacheRemove c.entries key, misses := c.misses + 1 })
  | none => (none, { c with misses := c.misses + 1 })

/-- `ScanCache.set` at instant `now`: evict the single oldest-inserted entry
when at capacity, then store; `none` models the `ValueError` raised by `min`
on an empty dict. -/
def cacheSet {V : Type} (c : ScanCache V) (text : Str) (v : V) (now : Int) :
    Option (ScanCache V) :=
  let key := makeKey c text
  if c.entries.length ≥ c.maxSize then
    match cacheOldest c.entries with
    | none => none
    | some old =>
      some { c with entries := cacheInsert (cacheRemove c.entries old.key) key v now }
  else
    some { c with entries := cacheInsert c.entries key v now }

/-
## Input protection (input/scan.py, class PromptGuardInput)

The four pattern catalogues (critical / high / medium / legitimate) are
compiled regexes; they are embedded as matcher records.  Severity levels are
the Python ints 0–4; `max(0, severity_level - 1)` coincides with truncated
`Nat` subtraction.
-/

/-- A named input pattern: compiled `search` predicate, human label, and the
substitution function used by `_sanitise` (replace matches by the given
replacement). -/
structure InPat where
  search : Str → Bool
  name : Str
  sub : Str → Str → Str

/-- The compiled catalogues of a `PromptGuardInput` instance. -/
structure InputRules where
  critical : List InPat
  highRisk : List InPat
  medium : List InPat
  legitimate : List (Str → Bool)

/-- Result record of `PromptGuardInput.scan`. -/
structure InScanResult where
  risk : Str
  blocked : Bool
  warning : Bool
  reason : Option Str
  patternsFound : List Str
  sanitised : Str
deriving DecidableEq, Repr

/-- One severity-raising loop of `scan`: append tagged labels for matches and
`max` the severity with the tier level. -/
def raiseLoop (ps : List InPat) (tag : Str) (lvl : Nat) (text : Str)
    (acc : List Str × Nat) : List Str × Nat :=
  ps.foldl
    (fun a p => if p.search text then (a.1 ++ [tag ++ p.name], max a.2 lvl) else a)
    acc

/-- The legitimate-phrase loop of `scan`: each match lowers the accumulated
severity by one tier, with `max(0, ·)` as the floor. -/
def legitLoop (ps : List (Str → Bool)) (text : Str) (sev : Nat) : Nat :=
  ps.foldl (fun s p => if p text then s - 1 else s) sev

/-- Accumulated labels and severity after the three raise loops. -/
def raisedState (r : InputRules) (text : Str) : List Str × Nat :=
  raiseLoop r.medium (str "[MEDIUM] ") 2 text
    (raiseLoop r.highRisk (str "[HIGH] ") 3 text
      (raiseLoop r.critical (str "[CRITICAL] ") 4 text ([], 0)))

/-- Final severity of `scan`: the raised severity after legitimate-phrase
reductions (applied after, not before, the raise loops). -/
def inputSeverity (r : InputRules) (text : Str) : Nat :=
  legitLoop r.legitimate text (raisedState r text).2

/-- The `risk_map` dict of `scan` (`.get(·, 'low')`). -/
def riskMap (lvl : Nat) : Str :=
  if lvl = 0 then str "low" else if lvl = 1 then str "low"
  else if lvl = 2 then str "medium" else if lvl = 3 then str "high"
  else if lvl = 4 then str "critical" else str "low"

/-- `block_threshold_levels.get(threshold, 4)`. -/
def blockThresholdLevel (threshold : Str) : Nat :=
  if threshold = str "low" then 1
  else if threshold = str "medium" then 2
  else if threshold = str "high" then 3
  else if threshold = str "critical" then 4
  else 4

/-- `PromptGuardInput._sanitise`: substitute every critical and high pattern
by `[REDACTED]`. -/
def inputSanitise (r : InputRules) (text : Str) : Str :=
  (r.critical ++ r.highRisk).foldl (fun s p => p.sub (str "[REDACTED]") s) text

/-- `PromptGuardInput.scan`. -/
def inputScan (r : InputRules) (blockThreshold : Str) (text : Str) : InScanResult :=
  if text = [] then
    ⟨str "low", false, false, none, [], text⟩
  else
    let found := (raisedState r text).1
    let sev := inputSeverity r text
    let risk := riskMap sev
    let blocked := sev ≥ blockThresholdLevel blockThreshold
    let warning := sev > 0 && !blocked
    let reason := if found ≠ [] then some (str "Found: " ++ strJoin (str ", ") (found.take 3)) else none
    ⟨risk, blocked, warning, reason, found,
      if found ≠ [] then inputSanitise r text else text⟩

/-
## Output scanner (prompt_guard.py, class OutputScanner)

The deny / commitment / PII patterns come from the YAML policy file and are
compiled in `PolicyEngine._compile_patterns`; a compiled pattern is embedded
as its regex source plus `search` and `sub`.  The `await telemetry.emit`
side effect carries no data back into the verdict and is not modelled.
-/

/-- A compiled policy pattern: regex source, `search`, and `sub` (first
argument: the replacement string). -/
structure CompiledPat where
  src : Str
  search : Str → Bool
  sub : Str → Str → Str

/-- The parts of a compiled `PolicyEngine` that `OutputScanner.scan` reads. -/
structure OutputRules where
  outputEnabled : Bool
  piiScrubbing : Bool
  deny : List CompiledPat
  commitment : List CompiledPat
  piiEmail : CompiledPat
  piiPhone : CompiledPat
  piiCard : CompiledPat

/-- `ScanResult` of prompt_guard.py (the telemetry field is omitted). -/
structure OutScanResult where
  safe : Bool
  risk : Str
  blocked : Bool
  reason : Option Str
  patternsMatched : List Str
  sanitised : Str
deriving DecidableEq, Repr

/-- The ordered `(pii_type, pattern)` list iterated twice in `scan`. -/
def piiList (r : OutputRules) : List (Str × CompiledPat) :=
  [(str "email", r.piiEmail), (str "phone", r.piiPhone), (str "card", r.piiCard)]

/-- The `pii_found` list: PII types whose pattern matches (only when
`pii_scrubbing` is on). -/
def piiFound (r : OutputRules) (text : Str) : List Str :=
  if r.piiScrubbing then
    ((piiList r).filter (fun q => q.2.search text)).map Prod.fst
  else []

/-- The `matched` label list of `scan`, in append order:
deny, commitment, then PII. -/
def outputMatched (r : OutputRules) (text : Str) : List Str :=
  ((r.deny.filter (fun p => p.search text)).map (fun p => str "DENY: " ++ p.src))
    ++ ((r.commitment.filter (fun p => p.search text)).map (fun p => str "COMMITMENT: " ++ p.src))
    ++ ((piiFound r text).map (fun t => str "PII: " ++ t))

/-- The sanitised text of `scan`: all three PII patterns substituted by
`[[REDACTED]]` when any PII was found and scrubbing is on. -/
def outputSanitised (r : OutputRules) (text : Str) : Str :=
  if !(piiFound r text).isEmpty && r.piiScrubbing then
    (piiList r).foldl (fun s q => q.2.sub (str "[[REDACTED]]") s) text
  else text

/-- The risk / blocked decision of `scan` (`"COMMITMENT" in m` etc. are
substring tests on the labels). -/
def outputDecision (r : OutputRules) (text : Str) : Str × Bool :=
  let matched := outputMatched r text
  if matched.isEmpty then (str "low", false)
  else
    let hasCommitment := matched.any (fun m => isSub (str "COMMITMENT") m)
    let hasPii := matched.any (fun m => isSub (str "PII") m)
    let hasDeny := matched.any (fun m => isSub (str "DENY") m)
    if hasCommitment || hasPii then (str "critical", true)
    else if hasDeny then (str "high", false)
    else (str "low", false)

/-- `OutputScanner.scan`. -/
def outputScan (r : OutputRules) (text : Str) : OutScanResult :=
  if !r.outputEnabled then
    ⟨true, str "low", false, none, [], text⟩
  else
    let matched := outputMatched r text
    let (risk, blocked) := outputDecision r text
    let reason := if matched ≠ [] then some (str "Matched: " ++ strJoin (str ", ") (matched.take 3)) else none
    ⟨!blocked, risk, blocked, reason, matched, outputSanitised r text⟩

/-
## Semantic redaction (stateful_guard.py, class SemanticRedactor)

`PATTERNS` / `REPLACEMENTS` are two dicts over the same entity-type keys;
they are embedded as one ordered entry list. `findall` and `sub` are the
compiled-regex operations.
-/

/-- One entity table entry: type name, `findall`, `sub`, replacement token. -/
structure RedactEntry where
  name : Str
  findall : Str → List Str
  sub : Str → Str → Str
  replacement : Str

/-- The fixed entity table of a `SemanticRedactor`. -/
structure Redactor where
  entries : List RedactEntry

/-- `SemanticRedactor.redact`: every entity type is substituted when it has
matches; the detected map carries an entry for every known type. -/
def redact (r : Redactor) (text : Str) : Str × List (Str × List Str) :=
  (r.entries.foldl
      (fun s e => if (e.findall text).isEmpty then s else e.sub e.replacement s) text,
   r.entries.map (fun e => (e.name, e.findall text)))

/-
## Advanced guard (stateful_guard.py, class AdvancedGuard.check_input)
-/

/-- The `COMMANDS` dict keys, in insertion order. -/
def guardCommands : List Str :=
  [str "!guard-lock", str "!guard-unlock", str "!guard-status"]

/-- The four inline injection regexes of `check_input`, as
(regex source, matcher); each regex is a case-insensitive literal, except
for the `(system|all)` alternation. -/
def injectionPatterns : List (Str × (Str → Bool)) :=
  [(str "(?i)ignore previous", fun t => isSub (str "ignore previous") (pyLower t)),
   (str "(?i)disregard (system|all)", fun t =>
      isSub (str "disregard system") (pyLower t) || isSub (str "disregard all") (pyLower t)),
   (str "(?i)you are now", fun t => isSub (str "you are now") (pyLower t)),
   (str "(?i)pretend to be", fun t => isSub (str "pretend to be") (pyLower t))]

/-- State owned by an `AdvancedGuard` (the kill-switch durable file is the
`lockFile` field; command handlers would rewrite it). -/
structure AdvancedGuard where
  conversation : ConvBuffer
  sandbox : SandboxDetector
  lockFile : FileRead
  redactor : Redactor

/-- The three shapes of dict returned by `check_input`. -/
inductive CheckInputResult where
  | lockedOut (safe blocked : Bool) (reason : Str) (killswitch : Bool) (sanitised : Str)
  | command (safe blocked : Bool) (cmd reason : Str)
  | scanned (safe blocked : Bool) (risk : Str) (violations : List Str)
      (sandboxThreats : List Threat) (piiDetected : List (Str × List Str))
      (sanitised : Str) (contextLength : Nat)

/-- The `safe` field of a `check_input` result dict. -/
def CheckInputResult.safeB : CheckInputResult → Bool
  | .lockedOut s _ _ _ _ => s
  | .command s _ _ _ => s
  | .scanned s _ _ _ _ _ _ _ => s

/-- The `blocked` field of a `check_input` result dict. -/
def CheckInputResult.blockedB : CheckInputResult → Bool
  | .lockedOut _ b _ _ _ => b
  | .command _ b _ _ => b
  | .scanned _ b _ _ _ _ _ _ => b

/-- `AdvancedGuard.check_input` at instant `now`: kill-switch check, command
short-circuit, then conversation tracking + sandbox detection + redaction +
injection matching over context plus text. -/
def checkInput (g : AdvancedGuard) (now : Int) (text userId : Str) :
    CheckInputResult × AdvancedGuard :=
  if isLocked g.lockFile then
    (.lockedOut false true (str "Agent is locked") true text, g)
  else
    match guardCommands.find? (fun c => isPre c (pyLower (pyStrip text))) with
    | some c => (.command true false c (str "Command detected"), g)
    | none =>
      let conv₁ := addTurn g.conversation now userId text []
      let (context, conv₂) := getContext conv₁ now userId
      let sres := detect g.sandbox text []
      let (redacted, entities) := redact g.redactor text
      let analysisText := if context ≠ [] then context ++ str "\n" ++ text else text
      let violations :=
        ((injectionPatterns.filter (fun ip => ip.2 analysisText)).map
          (fun ip => str "injection:" ++ ip.1))
          ++ sres.threats.map (fun t => str "sandbox:" ++ t.type)
      let risk := if violations.isEmpty then str "low" else str "critical"
      let blocked := risk = str "critical" || !violations.isEmpty
      (.scanned (!blocked) blocked risk violations sres.threats entities redacted
          context.length,
       { g with conversation := conv₂ })

/-
## Policy engine load / compile / reload (prompt_guard.py, class PolicyEngine)

A raw configured pattern carries its source and whether `re.compile` accepts
it; a compiled pattern is represented by its source.  `self._compiled` is a
dict filled key by key, so a `re.error` leaves the keys assigned before the
failure; `self._compiled = {}` at the top of `_compile_patterns` discards the
previous ruleset immediately.  `_load_config` raising (missing file, YAML
error) is the `none` load outcome.
-/

/-- A raw pattern string from the YAML config. -/
structure RawPat where
  src : Str
  valid : Bool
deriving DecidableEq, Repr

/-- `re.compile` on one raw pattern: the compiled matcher, or an exception. -/
def compileOne (p : RawPat) : Option Str :=
  if p.valid then some p.src else none

/-- The pattern groups of a parsed `PolicyConfig`. -/
structure PolicyConfig where
  inputBlock : List RawPat
  inputWarn : List RawPat
  outputDeny : List RawPat
  outputCommitment : List RawPat
  piiEmail : RawPat
  piiPhone : RawPat
  piiCard : RawPat
deriving DecidableEq, Repr

/-- The `self._compiled` dict; `none` is a key not (yet) assigned. -/
structure CompiledDict where
  inputBlock : Option (List Str)
  inputWarn : Option (List Str)
  outputDeny : Option (List Str)
  outputCommitment : Option (List Str)
  piiEmail : Option Str
  piiPhone : Option Str
  piiCard : Option Str
deriving DecidableEq, Repr

/-- The freshly reset `self._compiled = {}`. -/
def emptyCompiled : CompiledDict := ⟨none, none, none, none, none, none, none⟩

/-- The list comprehension `[re.compile(p) for p in group]`: compile left to
right, aborting at the first rejected pattern. -/
def compileList : List RawPat → Option (List Str)
  | [] => some []
  | p :: rest =>
    match compileOne p with
    | none => none
    | some s =>
      match compileList rest with
      | none => none
      | some ss => some (s :: ss)

/-- `PolicyEngine._compile_patterns`: assign the dict key by key in source
order, stopping at the first pattern `re.compile` rejects; returns the dict
state left behind and whether the whole compile succeeded. -/
def compilePatternsRun (c : PolicyConfig) : CompiledDict × Bool :=
  match compileList c.inputBlock with
  | none => (emptyCompiled, false)
  | some ib =>
    let d₁ := { emptyCompiled with inputBlock := some ib }
    match compileList c.inputWarn with
    | none => (d₁, false)
    | some iw =>
      let d₂ := { d₁ with inputWarn := some iw }
      match compileList c.outputDeny with
      | none => (d₂, false)
      | some od =>
        let d₃ := { d₂ with outputDeny := some od }
        match compileList c.outputCommitment with
        | none => (d₃, false)
        | some oc =>
          let d₄ := { d₃ with outputCommitment := some oc }
          match compileOne c.piiEmail with
          | none => (d₄, false)
          | some pe =>
            let d₅ := { d₄ with piiEmail := some pe }
            match compileOne c.piiPhone with
            | none => (d₅, false)
            | some pp =>
              let d₆ := { d₅ with piiPhone := some pp }
              match compileOne c.piiCard with
              | none => (d₆, false)
              | some pc => ({ d₆ with piiCard := some pc }, true)

/-- Whether every pattern of a config is accepted by `re.compile`. -/
def configAllValid (c : PolicyConfig) : Bool :=
  c.inputBlock.all RawPat.valid && c.inputWarn.all RawPat.valid
    && c.outputDeny.all RawPat.valid && c.outputCommitment.all RawPat.valid
    && c.piiEmail.valid && c.piiPhone.valid && c.piiCard.valid

/-- The fully compiled ruleset of a config. -/
def fullCompiled (c : PolicyConfig) : CompiledDict :=
  ⟨some (c.inputBlock.map RawPat.src), some (c.inputWarn.map RawPat.src),
   some (c.outputDeny.map RawPat.src), some (c.outputCommitment.map RawPat.src),
   some c.piiEmail.src, some c.piiPhone.src, some c.piiCard.src⟩

/-- The mutable state of a `PolicyEngine`. -/
structure EngineState where
  config : PolicyConfig
  compiled : CompiledDict
deriving DecidableEq, Repr

/-- `PolicyEngine.reload`: `self.config = self._load_config()` followed by
`self._compile_patterns()`; `load` is the outcome of `_load_config` (`none`
when it raises, in which case neither statement takes effect); the returned
flag is whether reload completed without an exception. -/
def engineReload (st : EngineState) (load : Option PolicyConfig) : EngineState × Bool :=
  match load with
  | none => (st, false)
  | some c =>
    let (d, ok) := compilePatternsRun c
    ({ config := c, compiled := d }, ok)

/-
## Middleware (middleware/middleware.py)

`run_scan` launches the input/output scan script in a subprocess and parses
its JSON; any exception (subprocess error, timeout, unparseable output) is
caught and replaced by the literal fallback dict.  A parsed JSON dict is
embedded with `Option` fields (`dict.get`).
-/

/-- The dict `run_scan` hands to its caller. -/
structure RawMwScan where
  error : Option Str
  risk : Option Str
  approved : Option Bool
  patternsFound : Option (List Str)
  reason : Option Str
  sanitised : Option Str
deriving Repr

/-- What happened in the scanner subprocess: parsed output, or any raised
exception with its message. -/
inductive ScanOutcome where
  | ok (r : RawMwScan)
  | err (e : Str)

/-- `run_scan`: on any exception, return
`{"error": str(e), "risk": "unknown", "approved": True}`. -/
def runScan : ScanOutcome → RawMwScan
  | .ok r => r
  | .err e => ⟨some e, some (str "unknown"), some true, none, none, none⟩

/-- The risk-level loop of middleware `scan_input` over `patterns_found`. -/
def mwRiskLevel (patterns : List Str) : Nat :=
  patterns.foldl
    (fun rl p =>
      if isSub (str "CRITICAL") p then max rl 4
      else if isSub (str "HIGH") p then max rl 3
      else if isSub (str "MEDIUM") p then max rl 2
      else max rl 1)
    0

/-- `CONFIG["input"]["block_threshold"]` in middleware.py. -/
def mwInputBlockThreshold : Str := str "critical"

/-- The dict returned by middleware `scan_input`. -/
structure MwInputResult where
  safe : Bool
  risk : Str
  reason : Option Str
  sanitised : Str
  blocked : Bool
deriving Repr

/-- Middleware `scan_input`: derive the risk from the scanner's
`patterns_found` tags and block when it reaches the configured threshold
(`THRESHOLD_LEVELS` is the same map as `block_threshold_levels`, with the
same default 4; `risk_map` is the same 0–4 table). -/
def mwScanInput (text : Str) (outcome : ScanOutcome) : MwInputResult :=
  let result := runScan outcome
  let patterns := result.patternsFound.getD []
  let riskLevel := mwRiskLevel patterns
  let shouldBlock := riskLevel ≥ blockThresholdLevel mwInputBlockThreshold
  ⟨!shouldBlock, riskMap riskLevel, result.reason, result.sanitised.getD text, shouldBlock⟩

/-
## Remaining derived definitions and concrete fixtures
-/

/-- `AdvancedGuard.check_output` result dict. -/
structure CheckOutputResult where
  safe : Bool
  blocked : Bool
  risk : Str
  sanitised : Str
  piiDetected : List (Str × List Str)
  sandboxThreats : List Threat

/-- `AdvancedGuard.check_output`: redact PII, detect sandbox escape, block
only on sandbox threats. -/
def checkOutput (g : AdvancedGuard) (text : Str) : CheckOutputResult :=
  let (redacted, entities) := redact g.redactor text
  let sres := detect g.sandbox text []
  ⟨sres.threats.isEmpty, !sres.threats.isEmpty,
   if sres.threats.isEmpty then str "low" else str "critical",
   redacted, entities, sres.threats⟩

/-- The last `n` elements of a list (what a `deque(maxlen=n)` retains). -/
def takeLast (n : Nat) (l : List α) : List α := l.drop (l.length - n)

/-- The `ConversationTurn`s built from a list of (instant, user msg, agent
msg) triples. -/
def turnsOf (msgs : List (Int × Str × Str)) : List Turn :=
  msgs.map (fun m => ⟨m.1, m.2.1, m.2.2⟩)

/-- Append a whole list of turns for one user via `add_turn`. -/
def addAll (st : ConvBuffer) (uid : Str) (msgs : List (Int × Str × Str)) : ConvBuffer :=
  msgs.foldl (fun s m => addTurn s m.1 uid m.2.1 m.2.2) st

/-- The capacity invariant: no user's window holds more turns than the
configured window size. -/
def convWF (s : ConvBuffer) : Prop :=
  ∀ u b, s.buffers u = some b → b.length ≤ s.windowSize

/-- An empty conversation buffer with the constructor defaults
(`window_size=5`, `ttl_seconds=300`). -/
def emptyConv : ConvBuffer := ⟨5, 300, fun _ => none, fun _ => none⟩

/-- A two-turn conversation buffer fixture. -/
def convDemo : ConvBuffer := ⟨2, 300, fun _ => none, fun _ => none⟩

/-- A concrete sandbox detector instance: two dangerous patterns (one with a
critical-tagged name, one high) and one legitimate-context matcher; the
matchers are literal-substring instances of the corresponding regexes. -/
def sandboxDemo : SandboxDetector :=
  ⟨[⟨str "sudo\\s+", str "privilege_escalation", fun t => isSub (str "sudo ") t⟩,
    ⟨str "chmod\\s+\\+x", str "permission_change", fun t => isSub (str "chmod +x") t⟩],
   [fun i => isSub (str "how do i use sudo") (pyLower i)]⟩

/-- A do-nothing compiled pattern (matches nothing, substitutes nothing). -/
def noPat : CompiledPat := ⟨[], fun _ => false, fun _ s => s⟩

/-- The configured PII email pattern `[\w.-]+@[\w.-]+\.\w+` restricted to the
inputs exercised below: on `"Contact me at jane@example.com"` that regex
matches exactly the substring `jane@example.com`, and this matcher/sub pair
agrees with it there. -/
def emailDemoPat : CompiledPat :=
  ⟨str "[\\w.-]+@[\\w.-]+\\.\\w+",
   fun s => isSub (str "jane@example.com") s,
   fun repl s => replaceAll (str "jane@example.com") repl s⟩

/-- Output rules fixture: PII email pattern only, defaults on. -/
def c4Rules : OutputRules := ⟨true, true, [], [], emailDemoPat, noPat, noPat⟩

/-- The §8 scenario output text. -/
def c4Text : Str := str "Contact me at jane@example.com"

/-- A redactor fixture: the `EMAIL` entry of `SemanticRedactor.PATTERNS` with
its `REPLACEMENTS` token `[EMAIL_REDACTED]`, as a literal-substring instance
of the email regex agreeing with it on the text exercised below. -/
def redactorDemo : Redactor :=
  ⟨[⟨str "EMAIL",
     fun s => if isSub (str "jane@example.com") s then [str "jane@example.com"] else [],
     fun repl s => replaceAll (str "jane@example.com") repl s,
     str "[EMAIL_REDACTED]"⟩]⟩

/-- A guard fixture with an unlocked kill switch. -/
def guardDemo : AdvancedGuard := ⟨emptyConv, sandboxDemo, FileRead.absent, redactorDemo⟩

/-- Output rules fixture for the decision-rule witness: one deny pattern and
one commitment pattern, PII patterns matching nothing. -/
def c2Rules : OutputRules :=
  ⟨true, true,
   [⟨str "gpt-\\d", fun s => isSub (str "gpt-4") s, fun _ s => s⟩],
   [⟨str "\\d+%\\s*discount", fun s => isSub (str "% discount") s, fun _ s => s⟩],
   noPat, noPat, noPat⟩

/-- Input rules fixture: one critical pattern and one legitimate-phrase
matcher (literal-substring instances of the corresponding regexes). -/
def c5Rules : InputRules :=
  ⟨[⟨fun s => isSub (str "ignore previous") (pyLower s), str "Direct instruction override",
     fun repl s => replaceAll (str "ignore previous") repl s⟩],
   [], [],
   [fun s => isSub (str "ignore my typos") (pyLower s)]⟩

/-- An engine configuration whose every pattern compiles. -/
def cfgOld : PolicyConfig :=
  ⟨[⟨str "ignore previous", true⟩], [], [⟨str "gpt-\\d", true⟩], [],
   ⟨str "email-re", true⟩, ⟨str "phone-re", true⟩, ⟨str "card-re", true⟩⟩

/-- An engine state holding `cfgOld` fully compiled. -/
def stOld : EngineState := ⟨cfgOld, fullCompiled cfgOld⟩

/-- A new configuration whose `output_protection.deny_list` holds a pattern
`re.compile` rejects, while the input groups compile fine. -/
def cfgBad : PolicyConfig :=
  ⟨[⟨str "new-block", true⟩], [⟨str "new-warn", true⟩],
   [⟨str "bad(", false⟩], [],
   ⟨str "email-re", true⟩, ⟨str "phone-re", true⟩, ⟨str "card-re", true⟩⟩

/-- An empty `Nat`-valued scan cache with identity fingerprint (the SHA-256
hash only ever matters through equality of normalised texts). -/
def cache0 : ScanCache Nat := ⟨10, 5, id, [], 0, 0⟩

/-- `cache0` after storing 7 under the normalised key of `"Hello "`. -/
def cacheAfterSet : ScanCache Nat := { cache0 with entries := [⟨str "hello", 7, 0⟩] }

/-- A cache holding one entry inserted at instant 0 (stale by instant 10). -/
def cacheStale : ScanCache Nat := ⟨10, 5, id, [⟨str "k", 9, 0⟩], 0, 0⟩

/-
## Theorems
-/

/-- `isPre pat (pat ++ rest)` always holds. -/
theorem isPre_append (pat rest : Str) : isPre pat (pat ++ rest) = true := by
  induction pat with
  | nil => simp [isPre]
  | cons a as ih => simp [isPre, ih]

/-- Extending a matched string on the right preserves a prefix match. -/
theorem isPre_append_right {pat a : Str} (h : isPre pat a = true) (b : Str) :
    isPre pat (a ++ b) = true := by
  induction pat generalizing a with
  | nil => simp [isPre]
  | cons c cs ih =>
    cases a with
    | nil => simp [isPre] at h
    | cons d ds =>
      simp only [isPre, List.cons_append, Bool.and_eq_true, beq_iff_eq] at h ⊢
      exact ⟨h.1, ih h.2⟩

/-- A string starting with `pat` contains `pat`. -/
theorem isSub_of_isPre {pat s : Str} (h : isPre pat s = true) : isSub pat s = true := by
  cases s with
  | nil =>
    cases pat with
    | nil => simp [isSub]
    | cons a as => simp [isPre] at h
  | cons b bs => simp [isSub, h]

/-- A label built as `tag ++ t` contains any prefix of its tag. -/
theorem isSub_label {pat tag : Str} (h : isPre pat tag = true) (t : Str) :
    isSub pat (tag ++ t) = true :=
  isSub_of_isPre (isPre_append_right h t)

/--
C7.  If the kill-switch durable state file exists but cannot be read or
parsed, `_load_state` silently resets the in-memory record to unlocked with
empty metadata, and `is_locked` (which always re-reads) answers `false`: the
guard fails open on a corrupted lock record instead of surfacing the error.
-/
theorem killswitch_fails_open_on_corrupt_state :
    loadState FileRead.corrupt = ⟨false, none, none, []⟩
    ∧ isLocked FileRead.corrupt = false
    ∧ loadState (FileRead.parsed none none none none) = ⟨false, none, none, []⟩ := by
  exact ⟨rfl, rfl, rfl⟩

/--
C1 (code-bug evidence).  When the scanner subprocess raises (error, timeout,
or unparseable output), `run_scan` returns the fallback dict
`{"error": ..., "risk": "unknown", "approved": True}`, which carries no
`patterns_found`; middleware `scan_input` therefore computes risk level 0 and
returns `safe=True, blocked=False, risk="low"` with the text passed through —
it does NOT return a blocked / critical / "unknown" verdict as §7 requires.
-/
theorem mwScanInput_fails_open_on_scan_error (text e : Str) :
    (mwScanInput text (ScanOutcome.err e)).safe = true
    ∧ (mwScanInput text (ScanOutcome.err e)).blocked = false
    ∧ (mwScanInput text (ScanOutcome.err e)).risk = str "low"
    ∧ (mwScanInput text (ScanOutcome.err e)).sanitised = text := by
  exact ⟨rfl, rfl, rfl, rfl⟩

/-- Folding Python string `max` over severities drawn from
`{"critical", "high"}` yields `"high"` exactly when one is present
(lexicographically, `"critical" < "high"`). -/
theorem foldl_strMax_crit_high (xs : List Str) (acc : Str)
    (hacc : acc = str "critical" ∨ acc = str "high")
    (hxs : ∀ x ∈ xs, x = str "critical" ∨ x = str "high") :
    xs.foldl (fun a b => if strLt a b then b else a) acc =
      if acc = str "high" ∨ (str "high") ∈ xs then str "high" else str "critical" := by
  induction xs generalizing acc with
  | nil =>
    rcases hacc with h | h <;> subst h <;> decide
  | cons y ys ih =>
    have hy := hxs y (List.mem_cons_self y ys)
    have hrest : ∀ x ∈ ys, x = str "critical" ∨ x = str "high" :=
      fun x hx => hxs x (List.mem_cons_of_mem y hx)
    rw [List.foldl_cons]
    rcases hacc with ha | ha <;> rcases hy with hb | hb <;> subst ha <;> subst hb
    · have hstep : (if strLt (str "critical") (str "critical") then str "critical"
          else str "critical") = str "critical" := by decide
      rw [hstep, ih _ (Or.inl rfl) hrest]
      by_cases hmem : (str "high") ∈ ys
      · rw [if_pos (Or.inr hmem), if_pos (Or.inr (List.mem_cons_of_mem _ hmem))]
      · rw [if_neg (by rintro (h | h); exacts [absurd h (by decide), hmem h]),
          if_neg (by
            rintro (h | h)
            · exact absurd h (by decide)
            · rcases List.mem_cons.mp h with h | h
              · exact absurd h (by decide)
              · exact hmem h)]
    · have hstep : (if strLt (str "critical") (str "high") then str "high"
          else str "critical") = str "high" := by decide
      rw [hstep, ih _ (Or.inr rfl) hrest, if_pos (Or.inl rfl),
        if_pos (Or.inr (List.mem_cons_self _ _))]
    · have hstep : (if strLt (str "high") (str "critical") then str "critical"
          else str "high") = str "high" := by decide
      rw [hstep, ih _ (Or.inr rfl) hrest, if_pos (Or.inl rfl), if_pos (Or.inl rfl)]
    · have hstep : (if strLt (str "high") (str "high") then str "high"
          else str "high") = str "high" := by decide
      rw [hstep, ih _ (Or.inr rfl) hrest, if_pos (Or.inl rfl), if_pos (Or.inl rfl)]

/-- Every threat built by `detect` has severity `"critical"` or `"high"`. -/
theorem detect_threat_severity (d : SandboxDetector) (text intent : Str) :
    ∀ t ∈ (detect d text intent).threats,
      t.severity = str "critical" ∨ t.severity = str "high" := by
  intro t ht
  simp only [detect, List.mem_map] at ht
  obtain ⟨p, _, hp⟩ := ht
  subst hp
  dsimp only
  split
  · exact Or.inl rfl
  · exact Or.inr rfl

/--
C10.  `SandboxDetector.detect` aggregates the severity field with Python
`max(strings, default="none")`, i.e. the lexicographic string maximum of the
per-threat severities: `"none"` with no threats, `"critical"` when every
threat is critical, and `"high"` whenever any high-severity threat is
present — even alongside critical threats, because `"high" > "critical"` as
strings.
-/
theorem sandbox_severity_is_string_max (d : SandboxDetector) (text intent : Str) :
    ((detect d text intent).severity =
      pyStrMax ((detect d text intent).threats.map Threat.severity) (str "none"))
    ∧ ((detect d text intent).threats = [] → (detect d text intent).severity = str "none")
    ∧ ((detect d text intent).threats ≠ [] →
        (∀ t ∈ (detect d text intent).threats, t.severity = str "critical") →
        (detect d text intent).severity = str "critical")
    ∧ ((∃ t ∈ (detect d text intent).threats, t.severity = str "high") →
        (detect d text intent).severity = str "high") := by
  have hsev : (detect d text intent).severity =
      pyStrMax ((detect d text intent).threats.map Threat.severity) (str "none") := rfl
  refine ⟨hsev, ?_, ?_, ?_⟩
  · intro h
    rw [hsev, h]; rfl
  · intro hne hall
    rw [hsev]
    cases hts : (detect d text intent).threats with
    | nil => exact absurd hts hne
    | cons t ts =>
      have hallsev : ∀ x ∈ (t :: ts).map Threat.severity, x = str "critical" := by
        intro x hx
        simp only [List.mem_map] at hx
        obtain ⟨u, hu, hx⟩ := hx
        subst hx
        exact hall u (hts ▸ hu)
      simp only [pyStrMax, List.map_cons]
      rw [foldl_strMax_crit_high _ _ (Or.inl (hallsev _ (List.mem_cons_self _ _)))
        (fun x hx => Or.inl (hallsev x (List.mem_cons_of_mem _ hx)))]
      rw [if_neg]
      rintro (h | h)
      · have := hallsev t.severity (List.mem_cons_self _ _)
        rw [this] at h
        exact absurd h (by decide)
      · have := hallsev _ (List.mem_cons_of_mem _ h)
        exact absurd this (by decide)
  · intro hex
    obtain ⟨t, ht, hsevt⟩ := hex
    rw [hsev]
    cases hts : (detect d text intent).threats with
    | nil => rw [hts] at ht; simp at ht
    | cons u us =>
      have hall : ∀ x ∈ (u :: us).map Threat.severity,
          x = str "critical" ∨ x = str "high" := by
        intro x hx
        simp only [List.mem_map] at hx
        obtain ⟨w, hw, hx⟩ := hx
        subst hx
        exact detect_threat_severity d text intent w (hts ▸ hw)
      simp only [pyStrMax, List.map_cons]
      rw [foldl_strMax_crit_high _ _ (hall _ (List.mem_cons_self _ _))
        (fun x hx => hall x (List.mem_cons_of_mem _ hx))]
      rw [if_pos]
      rw [hts] at ht
      rcases List.mem_cons.mp ht with h | h
      · subst h; exact Or.inl hsevt
      · exact Or.inr (by rw [← hsevt]; exact List.mem_map_of_mem Threat.severity h)

/--
C10 witness: on a text hitting a critical-named and a high-named dangerous
pattern with no legitimising intent, the aggregate severity is `"high"`; with
no threats it is `"none"`.
-/
theorem sandbox_severity_witness :
    (detect sandboxDemo (str "run sudo rm -rf / and chmod +x x") []).severity = str "high"
    ∧ (detect sandboxDemo (str "hello there") []).severity = str "none" :=
  ⟨(sandbox_severity_is_string_max sandboxDemo (str "run sudo rm -rf / and chmod +x x")
      []).2.2.2 (by decide),
   (sandbox_severity_is_string_max sandboxDemo (str "hello there") []).2.1 (by decide)⟩

/-- Re-taking the last `n` elements after an append only needs the last `n`
elements of the left part. -/
theorem takeLast_append (n : Nat) {α : Type} (l m : List α) :
    takeLast n (takeLast n l ++ m) = takeLast n (l ++ m) := by
  unfold takeLast
  rw [List.drop_append_eq_append_drop, List.drop_append_eq_append_drop, List.drop_drop]
  have h1 : (l.length - n) + ((List.drop (l.length - n) l ++ m).length - n)
      = (l ++ m).length - n := by
    simp only [List.length_append, List.length_drop]
    omega
  have h2 : (List.drop (l.length - n) l ++ m).length - n - (List.drop (l.length - n) l).length
      = (l ++ m).length - n - l.length := by
    simp only [List.length_append, List.length_drop]
    omega
  rw [h1, h2]

/-- A `deque(maxlen=cap)` never holds more than `cap` elements. -/
theorem dequePush_length_le (cap : Nat) (b : List Turn) (t : Turn) :
    (dequePush cap b t).length ≤ cap := by
  simp only [dequePush, List.length_drop, List.length_append, List.length_cons]
  omega

/-- After a nonempty run of `add_turn`s for one user, that user's window is
exactly the last `windowSize` of the appended turns (after the prior
contents). -/
theorem addAll_buffers_self (msgs : List (Int × Str × Str)) (st : ConvBuffer) (uid : Str)
    (hne : msgs ≠ []) :
    (addAll st uid msgs).buffers uid =
      some (takeLast st.windowSize (((st.buffers uid).getD []) ++ turnsOf msgs)) := by
  induction msgs generalizing st with
  | nil => exact absurd rfl hne
  | cons m rest ih =>
    have hstep : addAll st uid (m :: rest) =
        addAll (addTurn st m.1 uid m.2.1 m.2.2) uid rest := rfl
    cases rest with
    | nil =>
      rw [hstep]
      show (addTurn st m.1 uid m.2.1 m.2.2).buffers uid = _
      simp only [addTurn]
      rw [if_pos trivial]
      rfl
    | cons m2 rest2 =>
      rw [hstep, ih _ (by simp)]
      have hbuf : ((addTurn st m.1 uid m.2.1 m.2.2).buffers uid).getD []
          = takeLast st.windowSize (((st.buffers uid).getD []) ++ [⟨m.1, m.2.1, m.2.2⟩]) := by
        simp only [addTurn, if_pos rfl, Option.getD_some]
        rfl
      have hws : (addTurn st m.1 uid m.2.1 m.2.2).windowSize = st.windowSize := rfl
      rw [hws, hbuf, takeLast_append]
      simp [turnsOf, List.append_assoc]

/-- `clear_user` preserves the capacity invariant. -/
theorem convWF_clearUser {s : ConvBuffer} (h : convWF s) (u : Str) :
    convWF (clearUser s u) := by
  intro u' b hb
  simp only [clearUser] at hb
  by_cases he : u' = u
  · rw [if_pos he] at hb; exact absurd hb (by simp)
  · rw [if_neg he] at hb; exact h u' b hb

/-- Every `ConversationBuffer` operation preserves the window size. -/
theorem applyConvOp_windowSize (s : ConvBuffer) (op : ConvOp) :
    (applyConvOp s op).windowSize = s.windowSize := by
  cases op with
  | add now u um am => rfl
  | getCtx now u =>
    simp only [applyConvOp, getContext]
    cases s.buffers u with
    | none => rfl
    | some b =>
      dsimp only
      split
      · rfl
      · rfl
  | clear u => rfl
  | clearExp now => rfl

/-- Every `ConversationBuffer` operation preserves the capacity invariant. -/
theorem convWF_apply {s : ConvBuffer} (h : convWF s) (op : ConvOp) :
    convWF (applyConvOp s op) := by
  intro u' b hb
  rw [applyConvOp_windowSize]
  cases op with
  | add now u um am =>
    simp only [applyConvOp, addTurn] at hb
    by_cases he : u' = u
    · rw [if_pos he] at hb
      cases hb
      exact dequePush_length_le _ _ _
    · rw [if_neg he] at hb
      exact h u' b hb
  | getCtx now u =>
    simp only [applyConvOp, getContext] at hb
    cases hc : s.buffers u with
    | none => rw [hc] at hb; exact h u' b hb
    | some bb =>
      rw [hc] at hb
      dsimp only at hb
      split at hb
      · exact convWF_clearUser h u u' b hb
      · exact h u' b hb
  | clear u =>
    exact convWF_clearUser h u u' b hb
  | clearExp now =>
    simp only [applyConvOp, clearExpired] at hb
    cases hc : s.timestamps u' with
    | none => rw [hc] at hb; exact h u' b hb
    | some ts =>
      rw [hc] at hb
      dsimp only at hb
      by_cases hcond : now - ts > s.ttl
      · rw [if_pos hcond] at hb
        exact absurd hb (by simp)
      · rw [if_neg hcond] at hb
        exact h u' b hb

/--
C8.  Conversation window eviction: starting from an absent (implicitly
empty) window, after appending `windowSize + k` turns (`k ≥ 1`) for one
user, exactly the most recent `windowSize` turns are retrievable, oldest
first; and a window never exceeds its configured capacity after any sequence
of buffer operations.
-/
theorem conversation_window_eviction
    (st : ConvBuffer) (uid : Str) (msgs : List (Int × Str × Str)) (k : Nat)
    (hstart : st.buffers uid = none)
    (hlen : msgs.length = st.windowSize + k) (hk : 1 ≤ k) :
    ((addAll st uid msgs).buffers uid = some ((turnsOf msgs).drop k)
      ∧ getRecentMessages (addAll st uid msgs) uid = (msgs.map (fun m => m.2.1)).drop k)
    ∧ ∀ (ops : List ConvOp) (s : ConvBuffer), convWF s →
        convWF (ops.foldl applyConvOp s) := by
  have hne : msgs ≠ [] := by
    intro h
    rw [h] at hlen
    simp at hlen
    omega
  have hbuf : (addAll st uid msgs).buffers uid = some ((turnsOf msgs).drop k) := by
    rw [addAll_buffers_self msgs st uid hne, hstart]
    simp only [Option.getD_none, List.nil_append, takeLast]
    have hlt : (turnsOf msgs).length = st.windowSize + k := by
      simp [turnsOf, hlen]
    rw [hlt]
    have harith : st.windowSize + k - st.windowSize = k := by omega
    rw [harith]
  refine ⟨⟨hbuf, ?_⟩, ?_⟩
  · rw [getRecentMessages, hbuf]
    rw [← List.map_drop]
    simp [turnsOf, List.map_map]
    rfl
  · intro ops
    induction ops with
    | nil => exact fun s hs => hs
    | cons op rest ih =>
      intro s hs
      rw [List.foldl_cons]
      exact ih _ (convWF_apply hs op)

/--
C8 witness: with capacity 2, after three appends the two most recent turns
are retrievable oldest-first, and the invariant holds for a concrete
operation sequence.
-/
theorem conversation_window_eviction_witness :
    getRecentMessages
        (addAll convDemo (str "u")
          [(0, str "m1", []), (1, str "m2", []), (2, str "m3", [])])
        (str "u") = [str "m2", str "m3"]
    ∧ convWF ([ConvOp.add 3 (str "u") (str "m4") []].foldl applyConvOp convDemo) := by
  have h := conversation_window_eviction convDemo (str "u")
    [(0, str "m1", []), (1, str "m2", []), (2, str "m3", [])] 1
    rfl (by decide) (by decide)
  refine ⟨?_, ?_⟩
  · rw [h.1.2]
    decide
  · exact h.2 [ConvOp.add 3 (str "u") (str "m4") []] convDemo
      (fun u b hb => by simp [convDemo] at hb)

/-- The legitimate-phrase loop subtracts exactly one tier per matching
pattern, floored at zero (`max(0, s - 1)` is `Nat` subtraction). -/
theorem legitLoop_eq_sub (ps : List (Str → Bool)) (text : Str) (sev : Nat) :
    legitLoop ps text sev = sev - (ps.filter (fun p => p text)).length := by
  induction ps generalizing sev with
  | nil => simp [legitLoop]
  | cons p rest ih =>
    simp only [legitLoop, List.foldl_cons] at *
    by_cases hp : p text
    · rw [if_pos hp, ih]
      simp [List.filter_cons, hp, Nat.sub_sub, Nat.add_comm]
    · rw [if_neg hp, ih]
      simp [List.filter_cons, hp]

/-- A raise loop over patterns none of which match leaves the accumulator
unchanged. -/
theorem raiseLoop_no_match {ps : List InPat} {text : Str}
    (h : ∀ p ∈ ps, p.search text = false) (tag : Str) (lvl : Nat)
    (acc : List Str × Nat) : raiseLoop ps tag lvl text acc = acc := by
  induction ps generalizing acc with
  | nil => rfl
  | cons p rest ih =>
    simp only [raiseLoop, List.foldl_cons]
    rw [if_neg (by simp [h p (List.mem_cons_self p rest)])]
    exact ih (fun q hq => h q (List.mem_cons_of_mem p hq)) acc

/-- Every block threshold maps to a positive level (`.get(·, 4)` over a map
whose values are 1–4). -/
theorem blockThresholdLevel_pos (s : Str) : 1 ≤ blockThresholdLevel s := by
  unfold blockThresholdLevel
  repeat' split
  all_goals omega

/--
C5.  In `PromptGuardInput.scan`, each matched legitimate-phrasing exception
reduces the accumulated severity by exactly one tier, never below the zero
floor, and the reduction is applied to the severity accumulated after all
three raise loops (critical / high / medium), not before; consequently a
text matching no critical, high, or medium pattern — in particular one
matching only legitimate-phrasing exceptions — is never blocked.
-/
theorem legit_phrasing_reduction (r : InputRules) (threshold text : Str) :
    (inputSeverity r text =
        (raisedState r text).2 - (r.legitimate.filter (fun p => p text)).length)
    ∧ ((∀ p ∈ r.critical, p.search text = false) →
       (∀ p ∈ r.highRisk, p.search text = false) →
       (∀ p ∈ r.medium, p.search text = false) →
       (inputScan r threshold text).blocked = false) := by
  constructor
  · exact legitLoop_eq_sub r.legitimate text (raisedState r text).2
  · intro hc hh hm
    by_cases hempty : text = []
    · rw [inputScan, if_pos hempty]
    · have hraised : raisedState r text = ([], 0) := by
        rw [raisedState, raiseLoop_no_match hc, raiseLoop_no_match hh,
          raiseLoop_no_match hm]
      have hsev : inputSeverity r text = 0 := by
        rw [inputSeverity, legitLoop_eq_sub, hraised]
        simp
      rw [inputScan, if_neg hempty]
      simp only [hsev]
      have := blockThresholdLevel_pos threshold
      simp only [decide_eq_false_iff_not]
      omega

/--
C5 witness: a text matching only the legitimate-phrasing matcher of
`c5Rules` (and no critical/high/medium pattern) is not blocked.
-/
theorem legit_phrasing_reduction_witness :
    (inputScan c5Rules (str "critical") (str "Please ignore my typos here")).blocked = false :=
  (legit_phrasing_reduction c5Rules (str "critical")
      (str "Please ignore my typos here")).2 (by decide) (by decide) (by decide)

/-- A list with a member is not empty. -/
theorem isEmpty_false_of_mem {α : Type} {l : List α} {a : α} (h : a ∈ l) :
    l.isEmpty = false := by
  cases l with
  | nil => simp at h
  | cons b bs => rfl

/-- The risk/blocked fields of an enabled output scan are those of the
decision step. -/
theorem outputScan_risk_blocked (r : OutputRules) (text : Str)
    (hEn : r.outputEnabled = true) :
    (outputScan r text).risk = (outputDecision r text).1
    ∧ (outputScan r text).blocked = (outputDecision r text).2
    ∧ (outputScan r text).sanitised = outputSanitised r text := by
  rcases hd : outputDecision r text with ⟨risk, blocked⟩
  simp [outputScan, hEn, hd]

/-- A matching commitment pattern or (with scrubbing on) a matching PII
pattern forces the critical/blocked decision. -/
theorem outputDecision_critical (r : OutputRules) (text : Str)
    (h : (∃ p ∈ r.commitment, p.search text = true)
      ∨ (r.piiScrubbing = true ∧ (r.piiEmail.search text = true
          ∨ r.piiPhone.search text = true ∨ r.piiCard.search text = true))) :
    outputDecision r text = (str "critical", true) := by
  have hex : ∃ m ∈ outputMatched r text,
      (isSub (str "COMMITMENT") m || isSub (str "PII") m) = true := by
    rcases h with ⟨p, hp, hs⟩ | ⟨hscrub, hpii⟩
    · refine ⟨str "COMMITMENT: " ++ p.src, ?_, ?_⟩
      · rw [outputMatched]
        refine List.mem_append_left _ (List.mem_append_right _ ?_)
        exact List.mem_map_of_mem _ (List.mem_filter.mpr ⟨hp, by simp [hs]⟩)
      · have hc : isSub (str "COMMITMENT") (str "COMMITMENT: " ++ p.src) = true :=
          isSub_label (by decide) p.src
        simp [hc]
    · have : ∃ t, t ∈ piiFound r text := by
        rw [piiFound, if_pos hscrub]
        rcases hpii with hs | hs | hs
        · have hmemf : (str "email", r.piiEmail) ∈ (piiList r).filter (fun q => q.2.search text) :=
            List.mem_filter.mpr ⟨by simp [piiList], by simp [hs]⟩
          exact ⟨str "email", List.mem_map_of_mem Prod.fst hmemf⟩
        · have hmemf : (str "phone", r.piiPhone) ∈ (piiList r).filter (fun q => q.2.search text) :=
            List.mem_filter.mpr ⟨by simp [piiList], by simp [hs]⟩
          exact ⟨str "phone", List.mem_map_of_mem Prod.fst hmemf⟩
        · have hmemf : (str "card", r.piiCard) ∈ (piiList r).filter (fun q => q.2.search text) :=
            List.mem_filter.mpr ⟨by simp [piiList], by simp [hs]⟩
          exact ⟨str "card", List.mem_map_of_mem Prod.fst hmemf⟩
      obtain ⟨t, ht⟩ := this
      refine ⟨str "PII: " ++ t, ?_, ?_⟩
      · rw [outputMatched]
        exact List.mem_append_right _ (List.mem_map_of_mem _ ht)
      · have hc : isSub (str "PII") (str "PII: " ++ t) = true :=
          isSub_label (by decide) t
        simp [hc]
  obtain ⟨m, hmem, hsub⟩ := hex
  rw [outputDecision]
  simp only [isEmpty_false_of_mem hmem, Bool.false_eq_true, if_false]
  rw [if_pos]
  rw [Bool.or_eq_true] at hsub
  rw [Bool.or_eq_true, List.any_eq_true, List.any_eq_true]
  rcases hsub with h' | h'
  · exact Or.inl ⟨m, hmem, h'⟩
  · exact Or.inr ⟨m, hmem, h'⟩

/-- With no commitment or PII findings and at least one deny match whose
label does not itself contain `"COMMITMENT"` or `"PII"`, the decision is
high risk without a block. -/
theorem outputDecision_deny_only (r : OutputRules) (text : Str)
    (hnc : ∀ p ∈ r.commitment, p.search text = false)
    (hnp : piiFound r text = [])
    (hd : ∃ p ∈ r.deny, p.search text = true)
    (hlab : ∀ p ∈ r.deny, isSub (str "COMMITMENT") (str "DENY: " ++ p.src) = false
        ∧ isSub (str "PII") (str "DENY: " ++ p.src) = false) :
    outputDecision r text = (str "high", false) := by
  have hcfil : r.commitment.filter (fun p => p.search text) = [] :=
    List.filter_eq_nil_iff.mpr (fun p hp => by simp [hnc p hp])
  have hmatch : outputMatched r text =
      (r.deny.filter (fun p => p.search text)).map (fun p => str "DENY: " ++ p.src) := by
    rw [outputMatched, hnp, hcfil]
    simp
  have hdenylab : ∀ m ∈ outputMatched r text,
      isSub (str "COMMITMENT") m = false ∧ isSub (str "PII") m = false := by
    intro m hm
    rw [hmatch] at hm
    obtain ⟨p, hp, hm⟩ := List.mem_map.mp hm
    subst hm
    exact hlab p (List.mem_filter.mp hp).1
  obtain ⟨p, hp, hs⟩ := hd
  have hmem : (str "DENY: " ++ p.src) ∈ outputMatched r text := by
    rw [hmatch]
    exact List.mem_map_of_mem _ (List.mem_filter.mpr ⟨hp, by simp [hs]⟩)
  rw [outputDecision]
  simp only [isEmpty_false_of_mem hmem, Bool.false_eq_true, if_false]
  rw [if_neg, if_pos]
  · rw [List.any_eq_true]
    exact ⟨_, hmem, isSub_label (by decide) p.src⟩
  · rw [Bool.or_eq_true, List.any_eq_true, List.any_eq_true]
    rintro (⟨m, hm, hsub⟩ | ⟨m, hm, hsub⟩)
    · rw [(hdenylab m hm).1] at hsub
      exact absurd hsub (by decide)
    · rw [(hdenylab m hm).2] at hsub
      exact absurd hsub (by decide)

/--
C2.  `OutputScanner.scan` decision rule: any commitment-category match, or
(with PII scrubbing enabled, its default) any PII-category match, forces
`blocked=true` and `risk="critical"` regardless of other categories; when
only deny-list patterns match (and no deny label happens to contain the
`COMMITMENT`/`PII` tags as substrings), the scan yields `risk="high"`
without a block — the code has no per-rule critical flag on deny matches,
so no deny match ever forces a block.
-/
theorem output_decision_rule (r : OutputRules) (text : Str)
    (hEn : r.outputEnabled = true) :
    ((∃ p ∈ r.commitment, p.search text = true) →
        (outputScan r text).blocked = true ∧ (outputScan r text).risk = str "critical")
    ∧ (r.piiScrubbing = true →
        (r.piiEmail.search text = true ∨ r.piiPhone.search text = true
          ∨ r.piiCard.search text = true) →
        (outputScan r text).blocked = true ∧ (outputScan r text).risk = str "critical")
    ∧ ((∀ p ∈ r.commitment, p.search text = false) →
        piiFound r text = [] →
        (∃ p ∈ r.deny, p.search text = true) →
        (∀ p ∈ r.deny, isSub (str "COMMITMENT") (str "DENY: " ++ p.src) = false
            ∧ isSub (str "PII") (str "DENY: " ++ p.src) = false) →
        (outputScan r text).risk = str "high" ∧ (outputScan r text).blocked = false) := by
  obtain ⟨hrisk, hblocked, -⟩ := outputScan_risk_blocked r text hEn
  refine ⟨?_, ?_, ?_⟩
  · intro h
    have hd := outputDecision_critical r text (Or.inl h)
    rw [hblocked, hrisk, hd]
    exact ⟨rfl, rfl⟩
  · intro hscrub hpii
    have hd := outputDecision_critical r text (Or.inr ⟨hscrub, hpii⟩)
    rw [hblocked, hrisk, hd]
    exact ⟨rfl, rfl⟩
  · intro hnc hnp hd hlab
    have hdec := outputDecision_deny_only r text hnc hnp hd hlab
    rw [hblocked, hrisk, hdec]
    exact ⟨rfl, rfl⟩

/--
C2 witness: a commitment match forces critical/blocked; a deny-only match
yields high risk without a block.
-/
theorem output_decision_rule_witness :
    (outputScan c2Rules (str "I can give you 30% discount")).blocked = true
    ∧ (outputScan c2Rules (str "I can give you 30% discount")).risk = str "critical"
    ∧ (outputScan c2Rules (str "Our system uses gpt-4")).risk = str "high"
    ∧ (outputScan c2Rules (str "Our system uses gpt-4")).blocked = false := by
  have h1 := (output_decision_rule c2Rules (str "I can give you 30% discount") rfl).1
    (by decide)
  have h2 := (output_decision_rule c2Rules (str "Our system uses gpt-4") rfl).2.2
    (by decide) (by decide) (by decide) (by decide)
  exact ⟨h1.1, h1.2, h2.1, h2.2⟩

/--
C4 counterexample.  On the §8 scenario output `"Contact me at
jane@example.com"`: `OutputScanner.scan` (the scan that blocks) substitutes
`[[REDACTED]]`, not the typed placeholder `[EMAIL_REDACTED]`, so its
sanitised text never contains `[EMAIL_REDACTED]`; the typed placeholder is
produced only by `SemanticRedactor.redact`, whose caller
`AdvancedGuard.check_output` does not block on PII.  No scan returns both
`blocked=true` and a sanitised text containing `[EMAIL_REDACTED]`.
-/
theorem email_redaction_counterexample :
    (outputScan c4Rules c4Text).blocked = true
    ∧ (outputScan c4Rules c4Text).sanitised = str "Contact me at [[REDACTED]]"
    ∧ isSub (str "[EMAIL_REDACTED]") (outputScan c4Rules c4Text).sanitised = false
    ∧ (checkOutput guardDemo c4Text).blocked = false
    ∧ isSub (str "[EMAIL_REDACTED]") (checkOutput guardDemo c4Text).sanitised = true
    ∧ isSub (str "jane@example.com") (checkOutput guardDemo c4Text).sanitised = false := by
  refine ⟨?_, ?_, ?_, ?_, ?_, ?_⟩ <;> decide

/--
C4 as amended.  For every output matched by the configured PII email
pattern (scanning and scrubbing enabled), `OutputScanner.scan` returns
`blocked=true`, `risk="critical"`, and a sanitised text equal to the input
with all three configured PII patterns substituted by `[[REDACTED]]` — the
`[EMAIL_REDACTED]` placeholder belongs to `SemanticRedactor.redact`, not to
this scan.
-/
theorem email_block_and_substitution (r : OutputRules) (text : Str)
    (hEn : r.outputEnabled = true) (hScrub : r.piiScrubbing = true)
    (hMatch : r.piiEmail.search text = true) :
    (outputScan r text).blocked = true
    ∧ (outputScan r text).risk = str "critical"
    ∧ (outputScan r text).sanitised =
        (piiList r).foldl (fun s q => q.2.sub (str "[[REDACTED]]") s) text := by
  have hd := outputDecision_critical r text (Or.inr ⟨hScrub, Or.inl hMatch⟩)
  obtain ⟨hrisk, hblocked, hsanit⟩ := outputScan_risk_blocked r text hEn
  have hmemf : (str "email", r.piiEmail) ∈ (piiList r).filter (fun q => q.2.search text) :=
    List.mem_filter.mpr ⟨by simp [piiList], by simp [hMatch]⟩
  have hne : (piiFound r text).isEmpty = false := by
    rw [piiFound, if_pos hScrub]
    exact isEmpty_false_of_mem (List.mem_map_of_mem Prod.fst hmemf)
  refine ⟨by rw [hblocked, hd], by rw [hrisk, hd], ?_⟩
  rw [hsanit, outputSanitised, hne, hScrub]
  simp

/--
C4 witness: the amended claim evaluated on the scenario input.
-/
theorem email_block_and_substitution_witness :
    (outputScan c4Rules c4Text).risk = str "critical"
    ∧ (outputScan c4Rules c4Text).blocked = true := by
  have h := email_block_and_substitution c4Rules c4Text rfl rfl (by decide)
  exact ⟨h.2.1, h.1⟩

/-- Compiling a pattern group succeeds exactly when every pattern is valid,
and then yields the compiled sources in order. -/
theorem compileList_eq (l : List RawPat) :
    compileList l = if l.all RawPat.valid then some (l.map RawPat.src) else none := by
  induction l with
  | nil => rfl
  | cons p rest ih =>
    by_cases hp : p.valid
    · have hc : compileOne p = some p.src := by simp [compileOne, hp]
      rw [compileList, hc, ih]
      by_cases hr : rest.all RawPat.valid
      · rw [if_pos hr]
        simp [List.all_cons, hp, hr]
      · rw [if_neg hr]
        simp [List.all_cons, hp, hr]
    · have hc : compileOne p = none := by simp [compileOne, hp]
      rw [compileList, hc]
      simp [List.all_cons, hp]

/--
C3 counterexample.  `reload` is not atomic: with `cfgBad` — whose input
groups compile but whose deny-list holds a rejected pattern — reload raises
after already installing the new config and recompiling the input groups,
leaving the engine with the new config, a partially rebuilt compiled dict
(input keys from the new config, output keys missing), and neither the old
ruleset nor the full new one.
-/
theorem reload_not_atomic_counterexample :
    (engineReload stOld (some cfgBad)).2 = false
    ∧ (engineReload stOld (some cfgBad)).1.config = cfgBad
    ∧ (engineReload stOld (some cfgBad)).1.config ≠ stOld.config
    ∧ (engineReload stOld (some cfgBad)).1.compiled.inputBlock = some [str "new-block"]
    ∧ (engineReload stOld (some cfgBad)).1.compiled.outputDeny = none
    ∧ (engineReload stOld (some cfgBad)).1.compiled ≠ stOld.compiled
    ∧ (engineReload stOld (some cfgBad)).1.compiled ≠ fullCompiled cfgBad := by
  refine ⟨?_, ?_, ?_, ?_, ?_, ?_, ?_⟩ <;> decide

/--
C3 as amended.  `reload` is atomic only against load failures: when
`_load_config` raises, the old config and compiled ruleset stay untouched;
when the load succeeds and every pattern compiles, the new ruleset fully
replaces the old; but when the load succeeds and any pattern fails to
compile, reload reports failure with the new config already installed and
the compiled ruleset only partially rebuilt.
-/
theorem reload_atomic_only_for_load_failure (st : EngineState) (c : PolicyConfig) :
    (engineReload st none = (st, false))
    ∧ (configAllValid c = true →
        engineReload st (some c) = (⟨c, fullCompiled c⟩, true))
    ∧ (configAllValid c = false →
        (engineReload st (some c)).2 = false
        ∧ (engineReload st (some c)).1.config = c) := by
  refine ⟨rfl, ?_, ?_⟩
  · intro hv
    simp only [configAllValid, Bool.and_eq_true] at hv
    obtain ⟨⟨⟨⟨⟨⟨h1, h2⟩, h3⟩, h4⟩, h5⟩, h6⟩, h7⟩ := hv
    simp [engineReload, compilePatternsRun, compileList_eq, h1, h2, h3, h4,
      compileOne, h5, h6, h7, fullCompiled]
  · intro hv
    have hconf : (engineReload st (some c)).1.config = c := by
      rcases hcp : compilePatternsRun c with ⟨d, ok⟩
      simp [engineReload, hcp]
    refine ⟨?_, hconf⟩
    have hok : (engineReload st (some c)).2 = (compilePatternsRun c).2 := by
      rcases hcp : compilePatternsRun c with ⟨d, ok⟩
      simp [engineReload, hcp]
    rw [hok]
    unfold compilePatternsRun
    simp only [compileList_eq]
    simp only [configAllValid] at hv
    by_cases h1 : c.inputBlock.all RawPat.valid
    · rw [if_pos h1]
      by_cases h2 : c.inputWarn.all RawPat.valid
      · rw [if_pos h2]
        by_cases h3 : c.outputDeny.all RawPat.valid
        · rw [if_pos h3]
          by_cases h4 : c.outputCommitment.all RawPat.valid
          · rw [if_pos h4]
            by_cases h5 : c.piiEmail.valid
            · by_cases h6 : c.piiPhone.valid
              · by_cases h7 : c.piiCard.valid
                · exfalso
                  rw [h1, h2, h3, h4, h5, h6, h7] at hv
                  simp at hv
                · simp [compileOne, h5, h6, h7]
              · simp [compileOne, h5, h6]
            · simp [compileOne, h5]
          · rw [if_neg h4]
        · rw [if_neg h3]
      · rw [if_neg h2]
    · rw [if_neg h1]

/--
C3 witness: a fully valid config fully replaces the ruleset; the invalid
config reports failure with its config installed.
-/
theorem reload_atomic_witness :
    engineReload stOld (some cfgOld) = (⟨cfgOld, fullCompiled cfgOld⟩, true)
    ∧ (engineReload stOld (some cfgBad)).2 = false
    ∧ (engineReload stOld (some cfgBad)).1.config = cfgBad := by
  have h := reload_atomic_only_for_load_failure stOld cfgOld
  have h' := reload_atomic_only_for_load_failure stOld cfgBad
  exact ⟨h.2.1 (by decide), (h'.2.2 (by decide)).1, (h'.2.2 (by decide)).2⟩

/-- Overwriting an existing key in place leaves it the first (and only)
entry found under that key. -/
theorem find?_replace {V : Type} (l : List (CacheEntry V)) (k : Str) (v : V) (t : Int)
    (h : l.any (fun e => e.key = k) = true) :
    (l.map (fun e => if e.key = k then (⟨k, v, t⟩ : CacheEntry V) else e)).find?
      (fun e => e.key = k) = some ⟨k, v, t⟩ := by
  induction l with
  | nil => simp at h
  | cons e es ih =>
    rw [List.map_cons]
    by_cases he : e.key = k
    · rw [if_pos he, List.find?_cons_of_pos]
      simp
    · rw [if_neg he, List.find?_cons_of_neg]
      · apply ih
        rw [List.any_cons] at h
        simpa [he] using h
      · simp [he]

/-- Appending a fresh entry behind keys that all differ finds the fresh
entry. -/
theorem find?_append_fresh {V : Type} (l : List (CacheEntry V)) (k : Str) (v : V) (t : Int)
    (h : l.any (fun e => e.key = k) = false) :
    (l ++ [(⟨k, v, t⟩ : CacheEntry V)]).find? (fun e => e.key = k) = some ⟨k, v, t⟩ := by
  induction l with
  | nil =>
    rw [List.nil_append, List.find?_cons_of_pos]
    simp
  | cons e es ih =>
    rw [List.any_cons] at h
    have h1 : decide (e.key = k) = false := by
      cases hd : decide (e.key = k)
      · rfl
      · rw [hd] at h; simp at h
    have h2 : es.any (fun e => e.key = k) = false := by
      cases hd : es.any (fun e => e.key = k)
      · rfl
      · rw [hd] at h; simp at h
    rw [List.cons_append, List.find?_cons_of_neg]
    · exact ih h2
    · simp at h1
      simp [h1]

/-- Dict assignment then lookup on the same key yields the stored pair. -/
theorem cacheLookup_cacheInsert {V : Type} (l : List (CacheEntry V)) (k : Str) (v : V)
    (t : Int) : cacheLookup (cacheInsert l k v t) k = some (v, t) := by
  rw [cacheLookup, cacheInsert]
  by_cases h : l.any (fun e => e.key = k) = true
  · rw [if_pos h, find?_replace l k v t h]
  · have h' : l.any (fun e => e.key = k) = false := by
      cases hd : l.any (fun e => e.key = k)
      · rfl
      · exact absurd hd h
    rw [if_neg h, find?_append_fresh l k v t h']

/-- Dict `del` then lookup on the same key reports absent. -/
theorem cacheLookup_cacheRemove {V : Type} (l : List (CacheEntry V)) (k : Str) :
    cacheLookup (cacheRemove l k) k = none := by
  rw [cacheLookup, cacheRemove]
  rw [List.find?_eq_none.mpr]
  intro x hx
  have := (List.mem_filter.mp hx).2
  simp at this ⊢
  exact this

/-- What a successful `ScanCache.set` guarantees: configuration untouched
and the stored pair found under the normalised key. -/
theorem cacheSet_spec {V : Type} {c c' : ScanCache V} {s : Str} {v : V} {t : Int}
    (h : cacheSet c s v t = some c') :
    c'.ttl = c.ttl ∧ c'.hashFn = c.hashFn
    ∧ cacheLookup c'.entries (makeKey c s) = some (v, t) := by
  rw [cacheSet] at h
  by_cases hfull : c.entries.length ≥ c.maxSize
  · rw [if_pos hfull] at h
    cases hold : cacheOldest c.entries with
    | none => rw [hold] at h; simp at h
    | some old =>
      rw [hold] at h
      dsimp only at h
      cases h
      exact ⟨rfl, rfl, cacheLookup_cacheInsert _ _ _ _⟩
  · rw [if_neg hfull] at h
    cases h
    exact ⟨rfl, rfl, cacheLookup_cacheInsert _ _ _ _⟩

/--
C9.  `ScanCache` keying and TTL behaviour: (1) texts equal after Python
`.lower().strip()` normalisation share one cache entry — a `set` on one
followed within the TTL by a `get` on the other returns the stored verdict,
for any fingerprint function; (2) a `get` on an entry whose age has reached
or passed the TTL evicts the entry and reports absent instead of returning
the stale value.
-/
theorem cache_normalised_key_and_ttl :
    (∀ (V : Type) (c c' : ScanCache V) (s₁ s₂ : Str) (v : V) (t t' : Int),
      pyStrip (pyLower s₁) = pyStrip (pyLower s₂) →
      cacheSet c s₁ v t = some c' →
      t' - t < c.ttl →
      (cacheGet c' s₂ t').1 = some v)
    ∧ (∀ (V : Type) (c : ScanCache V) (s : Str) (v : V) (ts t' : Int),
      cacheLookup c.entries (makeKey c s) = some (v, ts) →
      c.ttl ≤ t' - ts →
      (cacheGet c s t').1 = none
      ∧ cacheLookup ((cacheGet c s t').2.entries) (makeKey c s) = none) := by
  constructor
  · intro V c c' s₁ s₂ v t t' hnorm hset hfresh
    obtain ⟨httl, hhash, hlook⟩ := cacheSet_spec hset
    have hkey : makeKey c' s₂ = makeKey c s₁ := by
      rw [makeKey, makeKey, hhash, hnorm]
    rw [cacheGet, hkey, hlook]
    dsimp only
    rw [httl, if_pos hfresh]
  · intro V c s v ts t' hlook hstale
    have hnotfresh : ¬(t' - ts < c.ttl) := not_lt.mpr hstale
    rw [cacheGet, hlook]
    dsimp only
    rw [if_neg hnotfresh]
    exact ⟨rfl, cacheLookup_cacheRemove _ _⟩

/--
C9 witness: `set` under `"Hello "` then `get` under `"  HELLO"` (same
normalised form) within the TTL returns the stored verdict; a `get` on a
stale entry reports absent and evicts it.
-/
theorem cache_normalised_key_and_ttl_witness :
    (cacheGet cacheAfterSet (str "  HELLO") 3).1 = some 7
    ∧ (cacheGet cacheStale (str "k") 10).1 = none
    ∧ cacheLookup ((cacheGet cacheStale (str "k") 10).2.entries)
        (makeKey cacheStale (str "k")) = none := by
  have h1 := cache_normalised_key_and_ttl.1 Nat cache0 cacheAfterSet
    (str "Hello ") (str "  HELLO") 7 0 3 (by decide) rfl (by decide)
  have h2 := cache_normalised_key_and_ttl.2 Nat cacheStale (str "k") 9 0 10 rfl (by decide)
  exact ⟨h1, h2.1, h2.2⟩

/-- Evaluate `find?` on a cons cell as a conditional. -/
theorem find?_cons_eval {α : Type} (p : α → Bool) (a : α) (l : List α) :
    (a :: l).find? p = if p a then some a else l.find? p := by
  by_cases h : p a = true
  · rw [List.find?_cons_of_pos _ h, if_pos h]
  · rw [List.find?_cons_of_neg _ h, if_neg h]

/--
C6.  When the kill switch is not locked and the stripped, lowercased input
starts with `!guard-lock`, `!guard-unlock`, or `!guard-status`,
`check_input` returns the command dict — `safe=true`, `blocked=false` —
immediately: the returned guard state is unchanged (no conversation turn is
recorded, no sandbox detection, redaction, or injection matching contributes
to the result, and the command handler is not invoked, so the kill-switch
file is untouched).
-/
theorem guard_command_short_circuit (g : AdvancedGuard) (now : Int) (text userId : Str)
    (hUnlocked : isLocked g.lockFile = false)
    (hCmd : isPre (str "!guard-lock") (pyLower (pyStrip text)) = true
        ∨ isPre (str "!guard-unlock") (pyLower (pyStrip text)) = true
        ∨ isPre (str "!guard-status") (pyLower (pyStrip text)) = true) :
    (checkInput g now text userId).1.safeB = true
    ∧ (checkInput g now text userId).1.blockedB = false
    ∧ (checkInput g now text userId).2 = g
    ∧ ∃ c, (checkInput g now text userId).1
        = CheckInputResult.command true false c (str "Command detected") := by
  have hfind : ∃ c, guardCommands.find?
      (fun c => isPre c (pyLower (pyStrip text))) = some c := by
    rw [guardCommands, find?_cons_eval, find?_cons_eval, find?_cons_eval]
    rcases hCmd with h | h | h
    · exact ⟨_, by rw [if_pos h]⟩
    · by_cases h1 : isPre (str "!guard-lock") (pyLower (pyStrip text)) = true
      · exact ⟨_, by rw [if_pos h1]⟩
      · exact ⟨_, by rw [if_neg h1, if_pos h]⟩
    · by_cases h1 : isPre (str "!guard-lock") (pyLower (pyStrip text)) = true
      · exact ⟨_, by rw [if_pos h1]⟩
      · by_cases h2 : isPre (str "!guard-unlock") (pyLower (pyStrip text)) = true
        · exact ⟨_, by rw [if_neg h1, if_pos h2]⟩
        · exact ⟨_, by rw [if_neg h1, if_neg h2, if_pos h]⟩
  obtain ⟨c, hc⟩ := hfind
  have hres : checkInput g now text userId
      = (CheckInputResult.command true false c (str "Command detected"), g) := by
    rw [checkInput, if_neg (by simp [hUnlocked]), hc]
  rw [hres]
  exact ⟨rfl, rfl, rfl, ⟨c, rfl⟩⟩

/--
C6 witness: a `!guard-status` input (up to case and surrounding whitespace)
short-circuits `check_input` with a safe, unblocked command verdict and an
unchanged guard state.
-/
theorem guard_command_short_circuit_witness :
    (checkInput guardDemo 0 (str "  !Guard-Status please") (str "u1")).1.safeB = true
    ∧ (checkInput guardDemo 0 (str "  !Guard-Status please") (str "u1")).1.blockedB = false
    ∧ (checkInput guardDemo 0 (str "  !Guard-Status please") (str "u1")).2 = guardDemo := by
  have h := guard_command_short_circuit guardDemo 0 (str "  !Guard-Status please") (str "u1")
    rfl (Or.inr (Or.inr (by decide)))
  exact ⟨h.1, h.2.1, h.2.2.1⟩
